import Mathlib

/-!
# Verification of the `gto::cqueue` circular queue (torrentg/cqueue)

Shallow embedding of the circular-buffer container `gto::cqueue<T, Allocator>`
from `src/cqueue.hpp` (version 1.0.0) and the later drafts
`src/unnamed/part_004` (clamp-based iterators, `shrink_to_fit`, push/pop
aliases) and `src/unnamed/part_005` (version 1.0.5, `reserve` fast path
`n <= mReserved`).

The container state is five fields (`mData`, `mReserved`, `mCapacity`,
`mFront`, `mLength`).  `size_type` is `std::size_t` (64-bit unsigned);
all the arithmetic performed by the code stays far below `2^64`
(`mCapacity <= 2^63 - 1`, the doubling loop stops at the first value
`>= n <= mCapacity`, index computations are bounded by `mFront + pos
< 2^64`), so plain `Nat` models it exactly, with the input-domain bound
`< 2^64` made explicit where it matters (constructor argument).
The buffer is a function `Nat → Option α`: `none` is an unconstructed
slot, `some v` a live element, mirroring the explicit
`allocator_traits::construct`/`destroy` discipline of the source.
Exceptions (`std::length_error`, `std::out_of_range`) are `Except Err`;
the source throws them before performing any write, and the embedding
mirrors that ordering by sequencing the check before the state update.
-/

namespace Cqueue

/-- Errors thrown by the container: `std::length_error` ("cqueue capacity
exceeded" / "cqueue max capacity exceeded") and `std::out_of_range`
("cqueue access out-of-range"). -/
inductive Err : Type where
  | lengthError : Err
  | outOfRange : Err
deriving DecidableEq, Repr

/-- Container state: `mData`, `mReserved`, `mCapacity`, `mFront`, `mLength`
of `gto::cqueue` (src/cqueue.hpp lines 120-134).  A buffer slot holds
`none` when no element is constructed there. -/
structure Cq (α : Type) where
  data : Nat → Option α
  reserved : Nat
  capacity : Nat
  front : Nat
  length : Nat

/-- `GROWTH_FACTOR = 2` (src/cqueue.hpp line 116). -/
def GROWTH_FACTOR : Nat := 2

/-- `DEFAULT_RESERVED = 8` (src/cqueue.hpp line 118); named `MIN_ALLOCATE`
in the part_004/part_005 drafts. -/
def DEFAULT_RESERVED : Nat := 8

/-- `max_capacity() = std::numeric_limits<ptrdiff_t>::max() = 2^63 - 1`
(src/cqueue.hpp line 154). -/
def maxCapacity : Nat := 2 ^ 63 - 1

/-- The constructor `cqueue(capacity, alloc)` (src/cqueue.hpp lines 243-252):
throws `std::length_error` when `capacity > max_capacity()`, otherwise sets
`mCapacity` to `capacity`, with `0` mapped to the unlimited sentinel
`max_capacity()`.  The argument is a `size_t`, i.e. any value `< 2^64`. -/
def mk (α : Type) (capacity : Nat) : Except Err (Cq α) :=
  if capacity > maxCapacity then
    .error .lengthError
  else
    .ok ⟨fun _ => none, 0, if capacity = 0 then maxCapacity else capacity, 0, 0⟩

/-- `capacity()` (src/cqueue.hpp line 181): reports `0` when `mCapacity`
holds the unlimited sentinel. -/
def capacityQ (s : Cq α) : Nat :=
  if s.capacity = maxCapacity then 0 else s.capacity

/-- `size()` (src/cqueue.hpp line 183). -/
def sizeQ (s : Cq α) : Nat := s.length

/-- `getUncheckedIndex(pos)` (src/cqueue.hpp lines 320-323):
`(mFront + pos) % (mReserved == 0 ? 1 : mReserved)`. -/
def getUncheckedIndex (s : Cq α) (pos : Nat) : Nat :=
  (s.front + pos) % (if s.reserved = 0 then 1 else s.reserved)

/-- `getCheckedIndex(pos)` (src/cqueue.hpp lines 330-337): throws
`std::out_of_range` when `pos >= mLength`. -/
def getCheckedIndex (s : Cq α) (pos : Nat) : Except Err Nat :=
  if pos ≥ s.length then .error .outOfRange else .ok (getUncheckedIndex s pos)

/-- `operator[](n)` (src/cqueue.hpp lines 216-218): `mData[getCheckedIndex(n)]`. -/
def atPos (s : Cq α) (n : Nat) : Except Err (Option α) :=
  (getCheckedIndex s n).map s.data

/-- `front()` (src/cqueue.hpp line 190): `operator[](0)`. -/
def frontQ (s : Cq α) : Except Err (Option α) := atPos s 0

/-- `back()` (src/cqueue.hpp line 194): `operator[](mLength - 1)`.
On an empty queue the source computes `mLength - 1` in `size_t`
arithmetic, yielding `2^64 - 1 >= mLength`, so the checked index throws;
`Nat` subtraction gives `0 >= mLength` there with the same outcome. -/
def backQ (s : Cq α) : Except Err (Option α) := atPos s (s.length - 1)

/-- One iteration budget of the doubling loop: each pass with `0 < ret < n`
shrinks `n - ret` by at least one, so `n - ret` passes always suffice.
The fuel only realizes that measure; it never cuts the loop short. -/
def growLoopAux : Nat → Nat → Nat → Nat
  | 0, _, ret => ret
  | fuel + 1, n, ret =>
    if ret < n ∧ 0 < ret then growLoopAux fuel n (ret * GROWTH_FACTOR) else ret

/-- The doubling loop of `getNewMemoryLength` (src/cqueue.hpp lines 388-390):
`while (ret < n) ret *= GROWTH_FACTOR`.  When `ret = 0 < n` the C++ loop
never terminates; no caller reaches that case (`resizeIfRequired` throws
first when `mCapacity = 0 < n`), and the embedding returns `ret` there. -/
def growLoop (n ret : Nat) : Nat := growLoopAux (n - ret) n ret

/-- `getNewMemoryLength(n)` (src/cqueue.hpp lines 385-392): start from
`mReserved` (or `min(mCapacity, DEFAULT_RESERVED)` when `mReserved == 0`),
double until `>= n`, clamp to `mCapacity`. -/
def getNewMemoryLength (s : Cq α) (n : Nat) : Nat :=
  min (growLoop n (if s.reserved = 0 then min s.capacity DEFAULT_RESERVED else s.reserved))
    s.capacity

/-- `resize(len)` (src/cqueue.hpp lines 435-477): allocate a fresh buffer,
relocate the `mLength` live elements from logical positions `0..mLength-1`
into physical slots `0..mLength-1`, destroy the sources, deallocate the
old buffer, set `mReserved = len` and `mFront = 0`. -/
def resize (s : Cq α) (len : Nat) : Cq α :=
  { data := fun i => if i < s.length then s.data (getUncheckedIndex s i) else none
    reserved := len
    capacity := s.capacity
    front := 0
    length := s.length }

/-- `resizeIfRequired(n)` of src/cqueue.hpp lines 399-411 (version 1.0.0):
fast path `n < mReserved`; throws `std::length_error` when `n > mCapacity`,
*before* any mutation; otherwise resizes to `getNewMemoryLength(n)`. -/
def resizeIfRequired (s : Cq α) (n : Nat) : Except Err (Cq α) :=
  if n < s.reserved then .ok s
  else if n > s.capacity then .error .lengthError
  else .ok (resize s (getNewMemoryLength s n))

/-- `push(val)` (src/cqueue.hpp lines 483-501): ensure room for
`mLength + 1`, construct at slot `getUncheckedIndex(mLength)`, increment
`mLength`. -/
def push (s : Cq α) (v : α) : Except Err (Cq α) := do
  let t ← resizeIfRequired s (s.length + 1)
  let idx := getUncheckedIndex t t.length
  .ok { t with data := fun i => if i = idx then some v else t.data i
               length := t.length + 1 }

/-- `emplace(args...)` (src/cqueue.hpp lines 533-540): identical body to
`push` with the element constructed in place from `args`. -/
def emplace (s : Cq α) (v : α) : Except Err (Cq α) := push s v

/-- `push_front(val)` (src/cqueue.hpp lines 507-527): ensure room, construct
at `(mLength == 0 ? 0 : (mFront == 0 ? mReserved : mFront) - 1)`, adopt that
slot as `mFront`, increment `mLength`. -/
def pushFront (s : Cq α) (v : α) : Except Err (Cq α) := do
  let t ← resizeIfRequired s (s.length + 1)
  let idx := if t.length = 0 then 0 else (if t.front = 0 then t.reserved else t.front) - 1
  .ok { t with data := fun i => if i = idx then some v else t.data i
               front := idx
               length := t.length + 1 }

/-- `pop()` (src/cqueue.hpp lines 545-554): `false` on an empty queue;
otherwise destroy the slot `mFront`, advance `mFront` to
`getUncheckedIndex(1)`, decrement `mLength`, return `true`. -/
def pop (s : Cq α) : Bool × Cq α :=
  if s.length = 0 then (false, s)
  else
    (true, { s with data := fun i => if i = s.front then none else s.data i
                    front := getUncheckedIndex s 1
                    length := s.length - 1 })

/-- `pop_back()` (src/cqueue.hpp lines 559-568): `false` on an empty queue;
otherwise destroy the slot `getUncheckedIndex(mLength - 1)`, decrement
`mLength`, return `true`. -/
def popBack (s : Cq α) : Bool × Cq α :=
  if s.length = 0 then (false, s)
  else
    (true, { s with data := fun i => if i = getUncheckedIndex s (s.length - 1) then none
                                     else s.data i
                    length := s.length - 1 })

/-- `clear()` (src/cqueue.hpp lines 342-350): destroy the live slots
`getUncheckedIndex(i)` for `i < mLength`, reset `mFront` and `mLength`
to `0`, keep the buffer. -/
def clearQ (s : Cq α) : Cq α :=
  { s with data := fun idx =>
             if (List.range s.length).any (fun i => idx = getUncheckedIndex s i)
             then none else s.data idx
           front := 0
           length := 0 }

/-- `reset()` (src/cqueue.hpp lines 355-361): `clear()` then deallocate,
`mData = nullptr`, `mReserved = 0`; capacity preserved. -/
def resetQ (s : Cq α) : Cq α :=
  { data := fun _ => none
    reserved := 0
    capacity := s.capacity
    front := 0
    length := 0 }

/-- `reserve(n)` of src/cqueue.hpp lines 418-427 (version 1.0.0): fast path
`n < mReserved`, throws when `n > mCapacity`, otherwise `resize(n)`. -/
def reserveV100 (s : Cq α) (n : Nat) : Except Err (Cq α) :=
  if n < s.reserved then .ok s
  else if n > s.capacity then .error .lengthError
  else .ok (resize s n)

/-- `reserve(n)` of src/unnamed/part_005 lines 421-432 (version 1.0.5,
same in part_004): fast path `n <= mReserved`. -/
def reserveV105 (s : Cq α) (n : Nat) : Except Err (Cq α) :=
  if n ≤ s.reserved then .ok s
  else if n > s.capacity then .error .lengthError
  else .ok (resize s n)

/-- `shrink_to_fit()` (src/unnamed/part_004 lines 422-433, identical in
part_005 lines 437-450): return if `mReserved == 0`; `reset()` if empty;
return if `mLength == mReserved || mReserved <= MIN_ALLOCATE`; otherwise
`resize(mLength)`. -/
def shrinkToFit (s : Cq α) : Cq α :=
  if s.reserved = 0 then s
  else if s.length = 0 then resetQ s
  else if s.length = s.reserved ∨ s.reserved ≤ DEFAULT_RESERVED then s
  else resize s s.length

/-- `swap(other)` (src/cqueue.hpp lines 366-379): exchange all five members. -/
def swapQ (s t : Cq α) : Cq α × Cq α := (t, s)

/-- The source a move-constructed-from queue is left in (src/cqueue.hpp
line 167 with the member initializers of lines 126-134): the fresh object's
default members (`mData = nullptr`, `mReserved = 0`, `mCapacity = 0`,
`mFront = 0`, `mLength = 0`) are swapped into the source. -/
def movedFrom (α : Type) : Cq α :=
  ⟨fun _ => none, 0, 0, 0, 0⟩

/-- The copy constructor (src/cqueue.hpp lines 257-266): fresh state with
`mCapacity = other.mCapacity`, then `resizeIfRequired(other.mLength)`,
then `push(other[i])` for `i = 0..other.size()-1`.  After the resize the
new front is `0` and each push constructs at slot `i`, so the loop writes
`other.data(other.getUncheckedIndex(i))` into slot `i`. -/
def copyQ (s : Cq α) : Except Err (Cq α) := do
  let t ← resizeIfRequired (⟨fun _ => none, 0, s.capacity, 0, 0⟩ : Cq α) s.length
  .ok { t with data := fun i => if i < s.length then s.data (getUncheckedIndex s i) else none
               length := s.length }

/-! ## Iterators

The iterator state is a signed logical position `pos : Int` over a queue of
`size` elements; only position arithmetic matters to the claims, so the
operations are embedded as functions of the queue size `L`
(`static_cast<difference_type>(queue->size())`) and `pos`. -/

/-- Iterator constructor clamp of src/cqueue.hpp line 52:
`pos = (p < 0 ? -1 : (p < size() ? p : size()))`. -/
def iterInitV100 (L p : Int) : Int :=
  if p < 0 then -1 else if p < L then p else L

/-- `operator++` of src/cqueue.hpp line 62:
`pos = (pos + 1 < size() ? pos + 1 : size())`. -/
def iterIncV100 (L pos : Int) : Int :=
  if pos + 1 < L then pos + 1 else L

/-- `operator--` of src/cqueue.hpp line 63: `pos = (pos < 0 ? -1 : pos - 1)`. -/
def iterDecV100 (pos : Int) : Int :=
  if pos < 0 then -1 else pos - 1

/-- `operator+=(rhs)` of src/cqueue.hpp line 66:
`pos = (pos + rhs < size() ? pos + rhs : size())`. -/
def iterAddAssignV100 (L pos rhs : Int) : Int :=
  if pos + rhs < L then pos + rhs else L

/-- `operator-=(rhs)` of src/cqueue.hpp line 67:
`pos = (pos - rhs < 0 ? -1 : pos - rhs)`. -/
def iterSubAssignV100 (L pos rhs : Int) : Int :=
  if pos - rhs < 0 then -1 else pos - rhs

/-- `iter::clamp(p)` of src/unnamed/part_004 lines 54-56:
`std::clamp<difference_type>(p, -1, size())`. -/
def iterClampP4 (L p : Int) : Int :=
  max (-1) (min p L)

/-- `operator+=(rhs)` of src/unnamed/part_004 line 81: `pos = clamp(pos + rhs)`;
`operator++` is `*this += 1` (line 77). -/
def iterAddAssignP4 (L pos rhs : Int) : Int :=
  iterClampP4 L (pos + rhs)

/-- `operator-=(rhs)` of src/unnamed/part_004 line 82: `pos = clamp(pos - rhs)`;
`operator--` is `*this += -1` (line 78). -/
def iterSubAssignP4 (L pos rhs : Int) : Int :=
  iterClampP4 L (pos - rhs)

/-- `iter::cast(n)` (src/cqueue.hpp line 49 and part_004 lines 48-50):
`n < 0 ? queue->size() : static_cast<size_type>(n)`.  The result feeds
`operator[]`, i.e. the checked index translation. -/
def iterCast (s : Cq α) (pos : Int) : Nat :=
  if pos < 0 then s.length else pos.toNat

/-- Iterator dereference `operator*` (src/cqueue.hpp line 53):
`queue->operator[](cast(pos))`. -/
def iterDeref (s : Cq α) (pos : Int) : Except Err (Option α) :=
  atPos s (iterCast s pos)

/-! ## Reachable states and the structural invariant -/

/-- States produced from a freshly constructed `cqueue` by a finite
sequence of the public operations (claim C1's operation list: push,
push_front, emplace, pop, pop_back, reserve — both draft variants —
shrink_to_fit, clear, swap, copy and move). -/
inductive Reachable : Cq α → Prop where
  | init (c : Nat) (s : Cq α) : mk α c = .ok s → Reachable s
  | push (s t : Cq α) (v : α) : Reachable s → push s v = .ok t → Reachable t
  | pushFront (s t : Cq α) (v : α) : Reachable s → pushFront s v = .ok t → Reachable t
  | emplace (s t : Cq α) (v : α) : Reachable s → emplace s v = .ok t → Reachable t
  | pop (s : Cq α) : Reachable s → Reachable (pop s).2
  | popBack (s : Cq α) : Reachable s → Reachable (popBack s).2
  | reserveA (s t : Cq α) (n : Nat) : Reachable s → reserveV100 s n = .ok t → Reachable t
  | reserveB (s t : Cq α) (n : Nat) : Reachable s → reserveV105 s n = .ok t → Reachable t
  | shrink (s : Cq α) : Reachable s → Reachable (shrinkToFit s)
  | clear (s : Cq α) : Reachable s → Reachable (clearQ s)
  | swapFst (s t : Cq α) : Reachable s → Reachable t → Reachable (swapQ s t).1
  | swapSnd (s t : Cq α) : Reachable s → Reachable t → Reachable (swapQ s t).2
  | copy (s t : Cq α) : Reachable s → copyQ s = .ok t → Reachable t
  | movedFrom (s : Cq α) : Reachable s → Reachable (Cqueue.movedFrom α)

/-- The structural invariant of claim C1:
`length <= reserved <= capacity`, `front < reserved` whenever
`reserved > 0`, and `reserved == 0` forces `length == 0` and `front == 0`. -/
def Inv (s : Cq α) : Prop :=
  s.length ≤ s.reserved ∧ s.reserved ≤ s.capacity ∧
    (0 < s.reserved → s.front < s.reserved) ∧
    (s.reserved = 0 → s.length = 0 ∧ s.front = 0)

/-! ## Logical content and test-drive definitions -/

/-- The state produced by the default constructor `cqueue()` = `cqueue(0)`
(src/cqueue.hpp lines 159, 243-252): empty, unallocated, unlimited bound. -/
def emptyUnlimited (α : Type) : Cq α := ⟨fun _ => none, 0, maxCapacity, 0, 0⟩

/-- The element stored at logical position `i` (contents of the slot
`getUncheckedIndex i`). -/
def elemAt (s : Cq α) (i : Nat) : Option α := s.data (getUncheckedIndex s i)

/-- The logical front-to-back contents of the queue. -/
def toList (s : Cq α) : List (Option α) := (List.range s.length).map (elemAt s)

/-- Push a list of values at the back, left to right. -/
def pushList (s : Cq α) : List α → Except Err (Cq α)
  | [] => .ok s
  | v :: r => do pushList (← push s v) r

/-- Push a list of values at the front, left to right. -/
def pushFrontList (s : Cq α) : List α → Except Err (Cq α)
  | [] => .ok s
  | v :: r => do pushFrontList (← pushFront s v) r

/-- Read the front element, `pop()`, repeat `n` times, collecting the reads. -/
def drainFront : Cq α → Nat → List (Option α)
  | _, 0 => []
  | s, n + 1 => elemAt s 0 :: drainFront (pop s).2 n

/-- Read the back element, `pop_back()`, repeat `n` times, collecting the reads. -/
def drainBack : Cq α → Nat → List (Option α)
  | _, 0 => []
  | s, n + 1 => elemAt s (s.length - 1) :: drainBack (popBack s).2 n

/-- Push `0` at the back `n` times starting from the empty unlimited queue
(the scenario of the growth-doubling property). -/
def pushN : Nat → Except Err (Cq Nat)
  | 0 => .ok (emptyUnlimited Nat)
  | n + 1 => do push (← pushN n) 0

/-- Unwrap a container result, falling back to `d` on an error (used to
name concrete states in closed statements). -/
def okOr (d : Cq α) : Except Err (Cq α) → Cq α
  | .ok s => s
  | .error _ => d

/-- Concrete run: capacity-2 queue. -/
def qCap2 : Cq Nat := okOr (emptyUnlimited Nat) (mk Nat 2)

/-- Concrete run: capacity-2 queue after `push(10)`. -/
def qCap2a : Cq Nat := okOr qCap2 (push qCap2 10)

/-- Concrete run: capacity-2 queue after `push(10); push(20)` — full. -/
def qCap2b : Cq Nat := okOr qCap2a (push qCap2a 20)

/-- Concrete run: unlimited queue after `push(1)`. -/
def qU1 : Cq Nat := okOr (emptyUnlimited Nat) (push (emptyUnlimited Nat) 1)

/-- Concrete run: unlimited queue after `push(1); push(2)`. -/
def qU2 : Cq Nat := okOr qU1 (push qU1 2)

/-- Concrete run: unlimited queue after `push(1); push(2); pop()` —
`reserved = 8`, `front = 1`, `length = 1`. -/
def qU2p : Cq Nat := (pop qU2).2

/-- A concrete mid-size state: 16 reserved slots, 3 elements, front 0
(e.g. the result of nine pushes followed by six pops and a relocation). -/
def qWide : Cq Nat :=
  ⟨fun i => if i < 3 then some i else none, 16, maxCapacity, 0, 3⟩

/-- The state reached by pushing `vs` at the back of a default-constructed
queue (the FIFO round-trip scenario). -/
def backRun (α : Type) (vs : List α) : Cq α :=
  okOr (emptyUnlimited α) (pushList (emptyUnlimited α) vs)

/-- The state reached by pushing `vs` at the front of a default-constructed
queue (the front-insertion round-trip scenario). -/
def frontRun (α : Type) (vs : List α) : Cq α :=
  okOr (emptyUnlimited α) (pushFrontList (emptyUnlimited α) vs)

/-- The state after `n` pushes at the back of a default-constructed queue. -/
def pushNS (n : Nat) : Cq Nat := okOr (emptyUnlimited Nat) (pushN n)

/-! ## Growth-loop lemmas -/

/-- The fuel of `growLoopAux` is irrelevant once it covers the measure `n - ret`. -/
theorem growLoopAux_irrel :
    ∀ f1 f2 n ret : Nat, n - ret ≤ f1 → n - ret ≤ f2 →
      growLoopAux f1 n ret = growLoopAux f2 n ret := by
  intro f1
  induction f1 with
  | zero =>
    intro f2 n ret h1 h2
    have hle : ¬ (ret < n ∧ 0 < ret) := by omega
    cases f2 with
    | zero => rfl
    | succ f2 => simp only [growLoopAux, if_neg hle]
  | succ f1 ih =>
    intro f2 n ret h1 h2
    cases f2 with
    | zero =>
      have hle : ¬ (ret < n ∧ 0 < ret) := by omega
      simp only [growLoopAux, if_neg hle]
    | succ f2 =>
      simp only [growLoopAux]
      split
      case isTrue hc =>
        have hm : n - ret * GROWTH_FACTOR ≤ f1 := by
          simp only [GROWTH_FACTOR]
          omega
        have hm2 : n - ret * GROWTH_FACTOR ≤ f2 := by
          simp only [GROWTH_FACTOR]
          omega
        exact ih f2 n (ret * GROWTH_FACTOR) hm hm2
      case isFalse hc => rfl

theorem growLoop_of_not_lt {n ret : Nat} (h : ¬ (ret < n ∧ 0 < ret)) :
    growLoop n ret = ret := by
  rw [growLoop]
  cases hk : n - ret with
  | zero => rfl
  | succ k => simp only [growLoopAux, if_neg h]

theorem growLoop_of_lt {n ret : Nat} (h : ret < n) (h0 : 0 < ret) :
    growLoop n ret = growLoop n (ret * GROWTH_FACTOR) := by
  have hk : ∃ k, n - ret = k + 1 := ⟨n - ret - 1, by omega⟩
  obtain ⟨k, hk⟩ := hk
  rw [growLoop, hk]
  simp only [growLoopAux, if_pos (And.intro h h0)]
  rw [growLoop]
  exact growLoopAux_irrel k _ n (ret * GROWTH_FACTOR)
    (by simp only [GROWTH_FACTOR]; omega) (le_refl _)

/-- The doubling loop reaches at least `n` when it starts positive. -/
theorem le_growLoop_aux :
    ∀ k n ret : Nat, n - ret ≤ k → 0 < ret → n ≤ growLoop n ret := by
  intro k
  induction k with
  | zero =>
    intro n ret h1 h0
    rw [growLoop_of_not_lt (by omega)]
    omega
  | succ k ih =>
    intro n ret h1 h0
    by_cases hlt : ret < n
    · rw [growLoop_of_lt hlt h0]
      exact ih n (ret * GROWTH_FACTOR) (by simp only [GROWTH_FACTOR]; omega)
        (by simp only [GROWTH_FACTOR]; omega)
    · rw [growLoop_of_not_lt (by omega)]
      omega

theorem le_growLoop (n ret : Nat) (h0 : 0 < ret) : n ≤ growLoop n ret :=
  le_growLoop_aux (n - ret) n ret (le_refl _) h0

/-- The doubling loop never shrinks its accumulator. -/
theorem ret_le_growLoop_aux :
    ∀ k n ret : Nat, n - ret ≤ k → ret ≤ growLoop n ret := by
  intro k
  induction k with
  | zero =>
    intro n ret h1
    rw [growLoop_of_not_lt (by omega)]
  | succ k ih =>
    intro n ret h1
    by_cases hc : ret < n ∧ 0 < ret
    · rw [growLoop_of_lt hc.1 hc.2]
      have := ih n (ret * GROWTH_FACTOR) (by simp only [GROWTH_FACTOR]; omega)
      simp only [GROWTH_FACTOR] at this ⊢
      omega
    · rw [growLoop_of_not_lt hc]

theorem ret_le_growLoop (n ret : Nat) : ret ≤ growLoop n ret :=
  ret_le_growLoop_aux (n - ret) n ret (le_refl _)

/-- A single doubling step suffices when `ret < n ≤ 2 * ret`. -/
theorem growLoop_eq_double {n ret : Nat} (h : ret < n) (h2 : n ≤ ret * 2) :
    growLoop n ret = ret * 2 := by
  have h0 : 0 < ret := by omega
  have hstop : ¬ (ret * GROWTH_FACTOR < n ∧ 0 < ret * GROWTH_FACTOR) := by
    simp only [GROWTH_FACTOR]
    omega
  rw [growLoop_of_lt h h0, growLoop_of_not_lt hstop]
  simp only [GROWTH_FACTOR]

/-- `getNewMemoryLength` returns a value between the request `n` (when the
request is admissible) resp. the current `mReserved`, and `mCapacity`. -/
theorem getNewMemoryLength_bounds {s : Cq α} {n : Nat}
    (hInv : Inv s) (hcap : n ≤ s.capacity) :
    n ≤ getNewMemoryLength s n ∧ s.reserved ≤ getNewMemoryLength s n ∧
      getNewMemoryLength s n ≤ s.capacity := by
  obtain ⟨h1, h2, h3, h4⟩ := hInv
  unfold getNewMemoryLength
  set start := (if s.reserved = 0 then min s.capacity DEFAULT_RESERVED else s.reserved) with hs
  have hstart : s.reserved ≤ start := by
    rw [hs]
    rcases Nat.eq_zero_or_pos s.reserved with h | h
    · simp [h]
    · rw [if_neg (by omega)]
  have hret : start ≤ growLoop n start := ret_le_growLoop n start
  rcases Nat.eq_zero_or_pos n with hn | hn
  · subst hn
    exact ⟨Nat.zero_le _, le_min (le_trans hstart hret) h2, min_le_right _ _⟩
  · have hpos : 0 < start := by
      rw [hs]
      rcases Nat.eq_zero_or_pos s.reserved with h | h
      · rw [if_pos h]
        exact lt_min_iff.mpr ⟨lt_of_lt_of_le hn hcap, by decide⟩
      · rw [if_neg (by omega)]
        exact h
    exact ⟨le_min (le_growLoop n start hpos) hcap,
           le_min (le_trans hstart hret) h2, min_le_right _ _⟩

/-- `resize` preserves the invariant when the new buffer holds the current
elements and stays within capacity. -/
theorem inv_resize {s : Cq α} {len : Nat}
    (hInv : Inv s) (hlen : s.length ≤ len) (hcap : len ≤ s.capacity) :
    Inv (resize s len) := by
  refine ⟨hlen, hcap, fun h => h, fun h => ?_⟩
  have hl : len = 0 := h
  exact ⟨(by omega : s.length = 0), rfl⟩

/-- Behaviour of `resizeIfRequired` on its success path: length and capacity
untouched, the request fits into the (never shrunk) new reservation, and
the invariant is preserved. -/
theorem resizeIfRequired_ok {s t : Cq α} {n : Nat}
    (hInv : Inv s) (h : resizeIfRequired s n = .ok t) :
    Inv t ∧ t.length = s.length ∧ t.capacity = s.capacity ∧
      n ≤ t.reserved ∧ s.reserved ≤ t.reserved := by
  rw [resizeIfRequired] at h
  split at h
  case isTrue hlt =>
    injection h with h
    subst h
    exact ⟨hInv, rfl, rfl, Nat.le_of_lt hlt, le_refl _⟩
  case isFalse hge =>
    split at h
    case isTrue hbig => exact absurd h (by simp)
    case isFalse hok =>
      injection h with h
      subst h
      have hcap : n ≤ s.capacity := by omega
      obtain ⟨b1, b2, b3⟩ := getNewMemoryLength_bounds hInv hcap
      have hlen : s.length ≤ n := le_trans hInv.1 (by omega)
      exact ⟨inv_resize hInv (le_trans hlen b1) b3, rfl, rfl, b1, b2⟩

/-- `resizeIfRequired` fails exactly on over-capacity requests. -/
theorem resizeIfRequired_error {s : Cq α} {n : Nat} {e : Err}
    (h : resizeIfRequired s n = .error e) :
    e = .lengthError ∧ s.reserved ≤ n ∧ s.capacity < n := by
  rw [resizeIfRequired] at h
  split at h
  case isTrue hlt => exact absurd h (by simp)
  case isFalse hge =>
    split at h
    case isTrue hbig =>
      injection h with h
      exact ⟨h.symm, by omega, hbig⟩
    case isFalse hok => exact absurd h (by simp)

/-- `push` preserves the invariant. -/
theorem inv_push {s t : Cq α} {v : α} (hInv : Inv s) (h : push s v = .ok t) :
    Inv t ∧ t.length = s.length + 1 ∧ t.capacity = s.capacity ∧
      s.reserved ≤ t.reserved := by
  rw [push] at h
  cases hr : resizeIfRequired s (s.length + 1) with
  | error e => rw [hr] at h; exact absurd h (by simp [Bind.bind, Except.bind])
  | ok t₁ =>
    rw [hr] at h
    simp only [Bind.bind, Except.bind] at h
    injection h with h
    subst h
    obtain ⟨hI, hlen, hcap, hfit, hmono⟩ := resizeIfRequired_ok hInv hr
    obtain ⟨i1, i2, i3, i4⟩ := hI
    refine ⟨⟨by simp; omega, by simpa using i2, ?_, ?_⟩, by simp [hlen], by simp [hcap], by simpa using hmono⟩
    · intro hpos
      simp only at hpos ⊢
      exact i3 hpos
    · intro h0
      simp only at h0
      exact absurd h0 (by omega)

/-- `push_front` preserves the invariant. -/
theorem inv_pushFront {s t : Cq α} {v : α} (hInv : Inv s) (h : pushFront s v = .ok t) :
    Inv t ∧ t.length = s.length + 1 ∧ t.capacity = s.capacity ∧
      s.reserved ≤ t.reserved := by
  rw [pushFront] at h
  cases hr : resizeIfRequired s (s.length + 1) with
  | error e => rw [hr] at h; exact absurd h (by simp [Bind.bind, Except.bind])
  | ok t₁ =>
    rw [hr] at h
    simp only [Bind.bind, Except.bind] at h
    injection h with h
    subst h
    obtain ⟨hI, hlen, hcap, hfit, hmono⟩ := resizeIfRequired_ok hInv hr
    obtain ⟨i1, i2, i3, i4⟩ := hI
    have hres : 0 < t₁.reserved := by omega
    refine ⟨⟨by simp; omega, by simpa using i2, ?_, ?_⟩, by simp [hlen], by simp [hcap], by simpa using hmono⟩
    · intro _
      simp only
      split
      · exact hres
      · split
        · omega
        · have := i3 hres
          omega
    · intro h0
      simp only at h0
      exact absurd h0 (by omega)

/-- `pop` preserves the invariant. -/
theorem inv_pop {s : Cq α} (hInv : Inv s) :
    Inv (pop s).2 ∧ (pop s).2.length = s.length - 1 ∧
      (pop s).2.capacity = s.capacity ∧ (pop s).2.reserved = s.reserved := by
  obtain ⟨i1, i2, i3, i4⟩ := hInv
  rw [pop]
  split
  case isTrue h0 => exact ⟨⟨i1, i2, i3, i4⟩, by simp [h0], rfl, rfl⟩
  case isFalse h0 =>
    have hres : 0 < s.reserved := by
      rcases Nat.eq_zero_or_pos s.reserved with h | h
      · exact absurd (i4 h).1 h0
      · exact h
    refine ⟨⟨by simp; omega, by simpa using i2, ?_, ?_⟩, by simp, rfl, rfl⟩
    · intro _
      simp only [getUncheckedIndex]
      rw [if_neg (by omega)]
      exact Nat.mod_lt _ hres
    · intro h
      simp only at h
      exact absurd h (by omega)

/-- `pop_back` preserves the invariant. -/
theorem inv_popBack {s : Cq α} (hInv : Inv s) :
    Inv (popBack s).2 ∧ (popBack s).2.length = s.length - 1 ∧
      (popBack s).2.capacity = s.capacity ∧ (popBack s).2.reserved = s.reserved := by
  obtain ⟨i1, i2, i3, i4⟩ := hInv
  rw [popBack]
  split
  case isTrue h0 => exact ⟨⟨i1, i2, i3, i4⟩, by simp [h0], rfl, rfl⟩
  case isFalse h0 =>
    refine ⟨⟨by simp; omega, by simpa using i2, fun h => i3 h, ?_⟩, by simp, rfl, rfl⟩
    intro h
    simp only at h
    exact ⟨by have := i1; omega, (i4 h).2⟩

/-- `clear` preserves the invariant. -/
theorem inv_clear {s : Cq α} (hInv : Inv s) : Inv (clearQ s) := by
  obtain ⟨i1, i2, i3, i4⟩ := hInv
  exact ⟨by simp [clearQ], by simpa [clearQ] using i2, fun h => by simpa [clearQ] using h, fun _ => ⟨rfl, rfl⟩⟩

/-- `reset` preserves the invariant. -/
theorem inv_reset {s : Cq α} : Inv (resetQ s) :=
  ⟨Nat.le_refl _, Nat.zero_le _, fun h => absurd h (by simp [resetQ]), fun _ => ⟨rfl, rfl⟩⟩

/-- `shrink_to_fit` preserves the invariant. -/
theorem inv_shrink {s : Cq α} (hInv : Inv s) : Inv (shrinkToFit s) := by
  rw [shrinkToFit]
  split
  · exact hInv
  · split
    · exact inv_reset
    · split
      · exact hInv
      · exact inv_resize hInv (le_refl _) (le_trans hInv.1 hInv.2.1)

/-- `reserve` (version 1.0.0) preserves the invariant and never shrinks. -/
theorem inv_reserveV100 {s t : Cq α} {n : Nat}
    (hInv : Inv s) (h : reserveV100 s n = .ok t) :
    Inv t ∧ t.length = s.length ∧ t.capacity = s.capacity ∧ s.reserved ≤ t.reserved := by
  rw [reserveV100] at h
  split at h
  case isTrue hlt =>
    injection h with h
    subst h
    exact ⟨hInv, rfl, rfl, le_refl _⟩
  case isFalse hge =>
    split at h
    case isTrue hbig => exact absurd h (by simp)
    case isFalse hok =>
      injection h with h
      subst h
      exact ⟨inv_resize hInv (le_trans hInv.1 (by omega)) (by omega), rfl, rfl, by simp [resize]; omega⟩

/-- `reserve` (version 1.0.5) preserves the invariant and never shrinks. -/
theorem inv_reserveV105 {s t : Cq α} {n : Nat}
    (hInv : Inv s) (h : reserveV105 s n = .ok t) :
    Inv t ∧ t.length = s.length ∧ t.capacity = s.capacity ∧ s.reserved ≤ t.reserved := by
  rw [reserveV105] at h
  split at h
  case isTrue hlt =>
    injection h with h
    subst h
    exact ⟨hInv, rfl, rfl, le_refl _⟩
  case isFalse hge =>
    split at h
    case isTrue hbig => exact absurd h (by simp)
    case isFalse hok =>
      injection h with h
      subst h
      exact ⟨inv_resize hInv (le_trans hInv.1 (by omega)) (by omega), rfl, rfl, by simp [resize]; omega⟩

/-- The copy constructor produces an invariant-satisfying state. -/
theorem inv_copy {s t : Cq α} (hInv : Inv s) (h : copyQ s = .ok t) : Inv t := by
  rw [copyQ] at h
  have hfresh : Inv (⟨fun _ => none, 0, s.capacity, 0, 0⟩ : Cq α) :=
    ⟨le_refl _, Nat.zero_le _, fun hh => absurd hh (by simp), fun _ => ⟨rfl, rfl⟩⟩
  cases hr : resizeIfRequired (⟨fun _ => none, 0, s.capacity, 0, 0⟩ : Cq α) s.length with
  | error e => rw [hr] at h; exact absurd h (by simp [Bind.bind, Except.bind])
  | ok t₁ =>
    rw [hr] at h
    simp only [Bind.bind, Except.bind] at h
    injection h with h
    subst h
    obtain ⟨hI, hlen, hcap, hfit, hmono⟩ := resizeIfRequired_ok hfresh hr
    obtain ⟨i1, i2, i3, i4⟩ := hI
    exact ⟨by simpa using hfit, by simpa using i2, fun hh => i3 (by simpa using hh),
           fun hh => ⟨by simp at hh ⊢; omega, by simpa using (i4 hh).2⟩⟩

/-- The state constructed by `mk` satisfies the invariant. -/
theorem inv_mk {c : Nat} {s : Cq α} (h : mk α c = .ok s) : Inv s := by
  rw [mk] at h
  split at h
  · exact absurd h (by simp)
  · injection h with h
    subst h
    exact ⟨le_refl _, Nat.zero_le _, fun hh => absurd hh (by simp), fun _ => ⟨rfl, rfl⟩⟩

/-- Every reachable state satisfies the structural invariant
(shared helper; induction over the operation sequence). -/
theorem inv_of_reachable {s : Cq α} (h : Reachable s) : Inv s := by
  induction h with
  | init c s h => exact inv_mk h
  | push s t v _ h ih => exact (inv_push ih h).1
  | pushFront s t v _ h ih => exact (inv_pushFront ih h).1
  | emplace s t v _ h ih => exact (inv_push ih h).1
  | pop s _ ih => exact (inv_pop ih).1
  | popBack s _ ih => exact (inv_popBack ih).1
  | reserveA s t n _ h ih => exact (inv_reserveV100 ih h).1
  | reserveB s t n _ h ih => exact (inv_reserveV105 ih h).1
  | shrink s _ ih => exact inv_shrink ih
  | clear s _ ih => exact inv_clear ih
  | swapFst s t _ _ _ iht => exact iht
  | swapSnd s t _ _ ihs _ => exact ihs
  | copy s t _ h ih => exact inv_copy ih h
  | movedFrom s _ _ =>
    exact ⟨le_refl _, le_refl _, fun hh => absurd hh (by simp [movedFrom]), fun _ => ⟨rfl, rfl⟩⟩

theorem mk_zero_eq : mk α 0 = .ok (emptyUnlimited α) := rfl

/-- `front()` returns the element at logical position `0` on a non-empty queue. -/
theorem frontQ_ok {s : Cq α} (h : 0 < s.length) : frontQ s = .ok (elemAt s 0) := by
  rw [frontQ, atPos, getCheckedIndex, if_neg (by omega)]
  rfl

/-- `back()` returns the element at logical position `length - 1` on a
non-empty queue. -/
theorem backQ_ok {s : Cq α} (h : 0 < s.length) : backQ s = .ok (elemAt s (s.length - 1)) := by
  rw [backQ, atPos, getCheckedIndex, if_neg (by omega)]
  rfl

/-- Distinct logical positions below `reserved` map to distinct physical
slots: the modular window of width `reserved` is injective. -/
theorem mod_window_inj {f r i j : Nat} (hi : i < r) (hj : j < r)
    (h : (f + i) % r = (f + j) % r) : i = j := by
  have hmod : Nat.ModEq r (f + i) (f + j) := h
  have := Nat.ModEq.add_left_cancel' f hmod
  have hij : i % r = j % r := this
  rwa [Nat.mod_eq_of_lt hi, Nat.mod_eq_of_lt hj] at hij

/-- `resize` preserves the logical contents. -/
theorem elemAt_resize {s : Cq α} {len i : Nat}
    (hlen : s.length ≤ len) (hi : i < s.length) :
    elemAt (resize s len) i = elemAt s i := by
  have hl : 0 < len := by omega
  have hr : (if len = 0 then 1 else len) = len := if_neg (by omega)
  simp only [elemAt, resize, getUncheckedIndex, hr, Nat.zero_add]
  rw [Nat.mod_eq_of_lt (by omega), if_pos hi]

/-- `resizeIfRequired` preserves the logical contents on success when the
request covers the current length. -/
theorem elemAt_resizeIfRequired {s t : Cq α} {n : Nat}
    (hInv : Inv s) (hn : s.length ≤ n) (h : resizeIfRequired s n = .ok t) :
    ∀ i < s.length, elemAt t i = elemAt s i := by
  rw [resizeIfRequired] at h
  split at h
  case isTrue hlt =>
    injection h with h
    subst h
    exact fun i _ => rfl
  case isFalse hge =>
    split at h
    case isTrue hbig => exact absurd h (by simp)
    case isFalse hok =>
      injection h with h
      subst h
      intro i hi
      have hcap : n ≤ s.capacity := by omega
      obtain ⟨b1, _, _⟩ := getNewMemoryLength_bounds hInv hcap
      exact elemAt_resize (le_trans hn b1) hi

/-- `push` appends at the back and preserves the existing contents. -/
theorem push_elem {s t : Cq α} {v : α} (hInv : Inv s) (h : push s v = .ok t) :
    t.length = s.length + 1 ∧ elemAt t s.length = some v ∧
      ∀ i < s.length, elemAt t i = elemAt s i := by
  rw [push] at h
  cases hr : resizeIfRequired s (s.length + 1) with
  | error e => rw [hr] at h; exact absurd h (by simp [Bind.bind, Except.bind])
  | ok t₁ =>
    rw [hr] at h
    simp only [Bind.bind, Except.bind] at h
    injection h with h
    subst h
    obtain ⟨hI, hlen, hcap, hfit, hmono⟩ := resizeIfRequired_ok hInv hr
    have hres : 0 < t₁.reserved := by omega
    have hmod : (if t₁.reserved = 0 then 1 else t₁.reserved) = t₁.reserved := if_neg (by omega)
    have hpres := elemAt_resizeIfRequired hInv (Nat.le_succ _) hr
    refine ⟨by simp [hlen], ?_, ?_⟩
    · simp only [elemAt, getUncheckedIndex, hmod, hlen]
      rw [if_pos trivial]
    · intro i hi
      have hislot : (t₁.front + i) % t₁.reserved ≠ (t₁.front + t₁.length) % t₁.reserved := by
        intro hc
        have := mod_window_inj (lt_of_lt_of_le (by omega) hfit)
          (lt_of_lt_of_le (by omega) hfit) hc
        omega
      simp only [elemAt, getUncheckedIndex, hmod]
      rw [if_neg hislot]
      have := hpres i hi
      simp only [elemAt, getUncheckedIndex, hmod] at this
      exact this

/-- `push_front` prepends at the front and preserves the existing contents
(shifted up by one logical position). -/
theorem pushFront_elem {s t : Cq α} {v : α} (hInv : Inv s) (h : pushFront s v = .ok t) :
    t.length = s.length + 1 ∧ elemAt t 0 = some v ∧
      ∀ i < s.length, elemAt t (i + 1) = elemAt s i := by
  rw [pushFront] at h
  cases hr : resizeIfRequired s (s.length + 1) with
  | error e => rw [hr] at h; exact absurd h (by simp [Bind.bind, Except.bind])
  | ok t₁ =>
    rw [hr] at h
    simp only [Bind.bind, Except.bind] at h
    injection h with h
    subst h
    obtain ⟨hI, hlen, hcap, hfit, hmono⟩ := resizeIfRequired_ok hInv hr
    have hres : 0 < t₁.reserved := by omega
    have hmod : (if t₁.reserved = 0 then 1 else t₁.reserved) = t₁.reserved := if_neg (by omega)
    have hpres := elemAt_resizeIfRequired hInv (Nat.le_succ _) hr
    set idx := if t₁.length = 0 then 0
               else (if t₁.front = 0 then t₁.reserved else t₁.front) - 1 with hidx
    have hfr : 0 < t₁.length → t₁.front < t₁.reserved := fun hl => hI.2.2.1 hres
    have hidx_lt : idx < t₁.reserved := by
      rw [hidx]
      split
      · omega
      · rename_i hl
        have hf := hfr (by omega)
        split
        · omega
        · omega
    have hidx_mod : idx = (t₁.front + (t₁.reserved - 1)) % t₁.reserved ∨ t₁.length = 0 := by
      rcases Nat.eq_zero_or_pos t₁.length with hl | hl
      · exact Or.inr hl
      · left
        have hf := hfr hl
        rw [hidx, if_neg (by omega)]
        rcases Nat.eq_zero_or_pos t₁.front with hf0 | hf0
        · rw [if_pos hf0, hf0, Nat.zero_add, Nat.mod_eq_of_lt (by omega)]
        · rw [if_neg (by omega)]
          have : t₁.front + (t₁.reserved - 1) = (t₁.front - 1) + t₁.reserved := by omega
          rw [this, Nat.add_mod_right, Nat.mod_eq_of_lt (by omega)]
    refine ⟨by simp [hlen], ?_, ?_⟩
    · simp only [elemAt, getUncheckedIndex, hmod, Nat.add_zero]
      rw [Nat.mod_eq_of_lt hidx_lt, if_pos rfl]
    · intro i hi
      have hil : i < t₁.length := by omega
      have hkey : (idx + (i + 1)) % t₁.reserved = (t₁.front + i) % t₁.reserved := by
        have hf := hfr (by omega)
        rw [hidx, if_neg (by omega)]
        rcases Nat.eq_zero_or_pos t₁.front with hf0 | hf0
        · rw [if_pos hf0, hf0]
          have h1 : t₁.reserved - 1 + (i + 1) = t₁.reserved + i := by omega
          rw [h1, Nat.add_mod_left, Nat.zero_add]
        · rw [if_neg (by omega)]
          have h1 : t₁.front - 1 + (i + 1) = t₁.front + i := by omega
          rw [h1]
      have hislot : (t₁.front + i) % t₁.reserved ≠ idx := by
        rcases hidx_mod with hm | hm
        · rw [hm]
          intro hc
          have := mod_window_inj (lt_of_lt_of_le (by omega) hfit) (by omega) hc
          omega
        · omega
      simp only [elemAt, getUncheckedIndex, hmod]
      rw [hkey, if_neg hislot]
      have := hpres i hi
      simp only [elemAt, getUncheckedIndex, hmod] at this
      exact this

/-- `pop` removes the front element, shifting the remaining contents down by
one logical position. -/
theorem pop_elem {s : Cq α} (hInv : Inv s) (h0 : 0 < s.length) :
    (pop s).1 = true ∧ (pop s).2.length = s.length - 1 ∧
      ∀ i < s.length - 1, elemAt (pop s).2 i = elemAt s (i + 1) := by
  obtain ⟨i1, i2, i3, i4⟩ := hInv
  have hres : 0 < s.reserved := by
    rcases Nat.eq_zero_or_pos s.reserved with h | h
    · omega
    · exact h
  have hf := i3 hres
  have hmod : (if s.reserved = 0 then 1 else s.reserved) = s.reserved := if_neg (by omega)
  rw [pop, if_neg (by omega)]
  refine ⟨rfl, by simp, ?_⟩
  intro i hi
  simp only [elemAt, getUncheckedIndex, hmod]
  have hstep : ((s.front + 1) % s.reserved + i) % s.reserved
      = (s.front + (i + 1)) % s.reserved := by
    rw [Nat.mod_add_mod]
    have h1 : s.front + 1 + i = s.front + (i + 1) := by omega
    rw [h1]
  rw [hstep]
  have hne : (s.front + (i + 1)) % s.reserved ≠ s.front := by
    intro hc
    have hc2 : (s.front + (i + 1)) % s.reserved = (s.front + 0) % s.reserved := by
      rw [hc, Nat.add_zero, Nat.mod_eq_of_lt hf]
    have := mod_window_inj (by omega) (by omega) hc2
    omega
  rw [if_neg hne]

/-- `pop_back` removes the back element, leaving the remaining contents in
place. -/
theorem popBack_elem {s : Cq α} (hInv : Inv s) (h0 : 0 < s.length) :
    (popBack s).1 = true ∧ (popBack s).2.length = s.length - 1 ∧
      ∀ i < s.length - 1, elemAt (popBack s).2 i = elemAt s i := by
  obtain ⟨i1, i2, i3, i4⟩ := hInv
  have hres : 0 < s.reserved := by
    rcases Nat.eq_zero_or_pos s.reserved with h | h
    · omega
    · exact h
  have hf := i3 hres
  have hmod : (if s.reserved = 0 then 1 else s.reserved) = s.reserved := if_neg (by omega)
  rw [popBack, if_neg (by omega)]
  refine ⟨rfl, by simp, ?_⟩
  intro i hi
  simp only [elemAt, getUncheckedIndex, hmod]
  have hne : (s.front + i) % s.reserved ≠ (s.front + (s.length - 1)) % s.reserved := by
    intro hc
    have := mod_window_inj (by omega) (by omega) hc
    omega
  rw [if_neg hne]

/-- `resizeIfRequired` succeeds whenever the request fits the capacity. -/
theorem resizeIfRequired_succeeds {s : Cq α} {n : Nat} (h : n ≤ s.capacity) :
    ∃ t, resizeIfRequired s n = .ok t := by
  rw [resizeIfRequired]
  split
  · exact ⟨s, rfl⟩
  · rw [if_neg (by omega)]
    exact ⟨_, rfl⟩

/-- `push` succeeds whenever the grown length fits the capacity. -/
theorem push_succeeds {s : Cq α} {v : α} (h : s.length + 1 ≤ s.capacity) :
    ∃ t, push s v = .ok t := by
  obtain ⟨t₁, h₁⟩ := resizeIfRequired_succeeds h
  rw [push, h₁]
  exact ⟨_, rfl⟩

/-- `push_front` succeeds whenever the grown length fits the capacity. -/
theorem pushFront_succeeds {s : Cq α} {v : α} (h : s.length + 1 ≤ s.capacity) :
    ∃ t, pushFront s v = .ok t := by
  obtain ⟨t₁, h₁⟩ := resizeIfRequired_succeeds h
  rw [pushFront, h₁]
  exact ⟨_, rfl⟩

/-- Pushing a list at the back appends it, in order, after the existing
contents. -/
theorem pushList_elems :
    ∀ (vs : List α) (s : Cq α), Inv s → s.length + vs.length ≤ s.capacity →
      ∃ t, pushList s vs = .ok t ∧ Inv t ∧ t.length = s.length + vs.length ∧
        t.capacity = s.capacity ∧
        (∀ i < s.length, elemAt t i = elemAt s i) ∧
        (∀ j : Fin vs.length, elemAt t (s.length + j.1) = some (vs.get j)) := by
  intro vs
  induction vs with
  | nil =>
    intro s hInv hcap
    exact ⟨s, rfl, hInv, by simp, rfl, fun i _ => rfl, fun j => absurd j.2 (by simp)⟩
  | cons v r ih =>
    intro s hInv hcap
    have hcap1 : s.length + 1 ≤ s.capacity := by
      simp only [List.length_cons] at hcap
      omega
    obtain ⟨t₁, h₁⟩ := push_succeeds (v := v) hcap1
    obtain ⟨hI₁, hlen₁, hcap₁, _⟩ := inv_push hInv h₁
    obtain ⟨_, hnew, hpres⟩ := push_elem hInv h₁
    obtain ⟨t, ht, hIt, hlent, hcapt, hprest, hvalst⟩ :=
      ih t₁ hI₁ (by simp only [List.length_cons] at hcap; omega)
    refine ⟨t, ?_, hIt, ?_, by omega, ?_, ?_⟩
    · simp only [pushList, h₁, Bind.bind, Except.bind]
      exact ht
    · simp only [List.length_cons]
      omega
    · intro i hi
      rw [hprest i (by omega), hpres i hi]
    · intro j
      rcases j with ⟨j, hj⟩
      cases j with
      | zero =>
        have := hprest s.length (by omega)
        simpa [this] using hnew
      | succ j' =>
        have hj' : j' < r.length := by
          simp only [List.length_cons] at hj
          omega
        have := hvalst ⟨j', hj'⟩
        have harith : t₁.length + j' = s.length + (j' + 1) := by omega
        rw [harith] at this
        exact this

/-- Pushing a list at the front prepends it in reverse: after
`push_front(v1); ...; push_front(vn)` the logical order front-to-back is
`vn, ..., v1`, i.e. `vj` sits at logical position `n - 1 - j` (0-based). -/
theorem pushFrontList_elems :
    ∀ (vs : List α) (s : Cq α), Inv s → s.length + vs.length ≤ s.capacity →
      ∃ t, pushFrontList s vs = .ok t ∧ Inv t ∧ t.length = s.length + vs.length ∧
        t.capacity = s.capacity ∧
        (∀ i < s.length, elemAt t (vs.length + i) = elemAt s i) ∧
        (∀ j : Fin vs.length, elemAt t (vs.length - 1 - j.1) = some (vs.get j)) := by
  intro vs
  induction vs with
  | nil =>
    intro s hInv hcap
    exact ⟨s, rfl, hInv, by simp, rfl, fun i _ => by simp, fun j => absurd j.2 (by simp)⟩
  | cons v r ih =>
    intro s hInv hcap
    have hcap1 : s.length + 1 ≤ s.capacity := by
      simp only [List.length_cons] at hcap
      omega
    obtain ⟨t₁, h₁⟩ := pushFront_succeeds (v := v) hcap1
    obtain ⟨hI₁, hlen₁, hcap₁, _⟩ := inv_pushFront hInv h₁
    obtain ⟨_, hnew, hpres⟩ := pushFront_elem hInv h₁
    obtain ⟨t, ht, hIt, hlent, hcapt, hprest, hvalst⟩ :=
      ih t₁ hI₁ (by simp only [List.length_cons] at hcap; omega)
    refine ⟨t, ?_, hIt, ?_, by omega, ?_, ?_⟩
    · simp only [pushFrontList, h₁, Bind.bind, Except.bind]
      exact ht
    · simp only [List.length_cons]
      omega
    · intro i hi
      have h1 := hprest (i + 1) (by omega)
      have harith : (v :: r).length + i = r.length + (i + 1) := by
        simp only [List.length_cons]
        omega
      rw [harith, h1, hpres i hi]
    · intro j
      rcases j with ⟨j, hj⟩
      cases j with
      | zero =>
        have h1 := hprest 0 (by omega)
        have harith : (v :: r).length - 1 - 0 = r.length + 0 := by
          simp only [List.length_cons]
          omega
        rw [harith, h1]
        exact hnew
      | succ j' =>
        have hj' : j' < r.length := by
          simp only [List.length_cons] at hj
          omega
        have := hvalst ⟨j', hj'⟩
        have harith : (v :: r).length - 1 - (j' + 1) = r.length - 1 - j' := by
          simp only [List.length_cons]
          omega
        rw [harith]
        exact this

/-- Repeatedly reading `front()` and popping yields the logical contents in
front-to-back order. -/
theorem drainFront_toList :
    ∀ (n : Nat) (s : Cq α), Inv s → s.length = n →
      drainFront s n = (List.range n).map (elemAt s) := by
  intro n
  induction n with
  | zero => intro s _ _; rfl
  | succ n ih =>
    intro s hInv hlen
    obtain ⟨_, hlen', hsh⟩ := pop_elem hInv (by omega)
    have hInv' := (inv_pop hInv).1
    have hrec := ih (pop s).2 hInv' (by omega)
    rw [drainFront, hrec, List.range_succ_eq_map, List.map_cons, List.map_map]
    refine congrArg (elemAt s 0 :: ·) ?_
    refine List.map_congr_left ?_
    intro a ha
    have haa : a < n := List.mem_range.mp ha
    simp only [Function.comp]
    rw [hsh a (by omega)]

/-- Repeatedly reading `back()` and popping from the back yields the logical
contents in back-to-front order. -/
theorem drainBack_toList :
    ∀ (n : Nat) (s : Cq α), Inv s → s.length = n →
      drainBack s n = ((List.range n).map (elemAt s)).reverse := by
  intro n
  induction n with
  | zero => intro s _ _; rfl
  | succ n ih =>
    intro s hInv hlen
    obtain ⟨_, hlen', hsh⟩ := popBack_elem hInv (by omega)
    have hInv' := (inv_popBack hInv).1
    have hrec := ih (popBack s).2 hInv' (by omega)
    rw [drainBack, hrec, List.range_succ, List.map_append, List.reverse_append]
    simp only [List.map_cons, List.map_nil, List.reverse_cons, List.reverse_nil,
      List.nil_append, List.cons_append, List.singleton_append]
    rw [hlen]
    simp only [Nat.add_sub_cancel]
    refine congrArg (elemAt s n :: ·) ?_
    refine congrArg List.reverse ?_
    refine List.map_congr_left ?_
    intro a ha
    have haa : a < n := List.mem_range.mp ha
    rw [hsh a (by omega)]

/-- Exact evolution of `mReserved` under `push` when doubling cannot hit the
capacity clamp: unchanged when the grown length still fits (including the
`n == mReserved` same-size reallocation of v1.0.0), first allocation
`DEFAULT_RESERVED`, otherwise doubled. -/
theorem push_reserved {s t : Cq α} {v : α} (hInv : Inv s) (h : push s v = .ok t)
    (h8 : DEFAULT_RESERVED ≤ s.capacity) (h2 : 2 * s.reserved ≤ s.capacity) :
    t.reserved = if s.length + 1 ≤ s.reserved then s.reserved
                 else if s.reserved = 0 then DEFAULT_RESERVED else 2 * s.reserved := by
  rw [push] at h
  cases hr : resizeIfRequired s (s.length + 1) with
  | error e => rw [hr] at h; exact absurd h (by simp [Bind.bind, Except.bind])
  | ok t₁ =>
    rw [hr] at h
    simp only [Bind.bind, Except.bind] at h
    injection h with h
    subst h
    show t₁.reserved = _
    rw [resizeIfRequired] at hr
    split at hr
    case isTrue hlt =>
      injection hr with hr
      subst hr
      rw [if_pos (by omega)]
    case isFalse hge =>
      split at hr
      case isTrue hbig => exact absurd hr (by simp)
      case isFalse hok =>
        injection hr with hr
        subst hr
        show getNewMemoryLength s (s.length + 1) = _
        rw [getNewMemoryLength]
        rcases Nat.eq_zero_or_pos s.reserved with hr0 | hr0
        · have hl0 : s.length = 0 := (hInv.2.2.2 hr0).1
          rw [if_pos hr0, hl0, min_eq_right h8]
          rw [growLoop_of_not_lt (by decide)]
          rw [min_eq_left h8]
          rw [if_neg (by omega), if_pos hr0]
        · rw [if_neg (by omega)]
          by_cases hcase : s.length + 1 ≤ s.reserved
          · rw [growLoop_of_not_lt (by omega), if_pos hcase, min_eq_left hInv.2.1]
          · have h1 := hInv.1
            rw [growLoop_eq_double (by omega) (by omega)]
            rw [if_neg hcase, if_neg (by omega)]
            rw [min_eq_left (by omega)]
            omega

/-- State invariant along the repeated-push scenario of the growth-doubling
property: after `n` pushes the length is `n`, the capacity is unlimited, and
`reserved` sits between `n` (and the minimum 8) and `2n + 8`. -/
theorem pushN_inv :
    ∀ n : Nat, n ≤ 2 ^ 60 →
      ∃ s : Cq Nat, pushN n = .ok s ∧ Inv s ∧ s.length = n ∧
        s.capacity = maxCapacity ∧ (n = 0 → s.reserved = 0) ∧
        (1 ≤ n → DEFAULT_RESERVED ≤ s.reserved ∧ n ≤ s.reserved ∧
          s.reserved ≤ 2 * n + DEFAULT_RESERVED) := by
  have hmc : maxCapacity = 9223372036854775807 := rfl
  have h60 : (2 : Nat) ^ 60 = 1152921504606846976 := rfl
  have h8 : DEFAULT_RESERVED = 8 := rfl
  intro n
  induction n with
  | zero =>
    intro _
    exact ⟨emptyUnlimited Nat, rfl, inv_mk mk_zero_eq, rfl, rfl, fun _ => rfl,
      fun h => absurd h (by omega)⟩
  | succ n ih =>
    intro hn
    obtain ⟨s, hs, hI, hlen, hcap, h0, hpos⟩ := ih (by omega)
    have hrbound : s.reserved ≤ 2 * n + DEFAULT_RESERVED := by
      rcases Nat.eq_zero_or_pos n with hz | hz
      · have := h0 hz
        omega
      · exact (hpos hz).2.2
    obtain ⟨t, ht⟩ := push_succeeds (s := s) (v := 0) (by rw [hlen, hcap]; omega)
    have hres := push_reserved hI ht (by rw [hcap]; omega) (by rw [hcap]; omega)
    obtain ⟨hIt, hlent, hcapt, hmono⟩ := inv_push hI ht
    refine ⟨t, ?_, hIt, by omega, by rw [hcapt, hcap], fun h => absurd h (by omega), ?_⟩
    · show (do push (← pushN n) 0) = .ok t
      rw [hs]
      simpa [Bind.bind, Except.bind] using ht
    · intro _
      rw [hlen] at hres
      by_cases hcase : n + 1 ≤ s.reserved
      · rw [if_pos hcase] at hres
        have hne : ¬ n = 0 := by
          intro hz
          have := h0 hz
          omega
        have := hpos (by omega)
        omega
      · rw [if_neg hcase] at hres
        rcases Nat.eq_zero_or_pos s.reserved with hz | hz
        · rw [if_pos hz] at hres
          have hn0 : n = 0 := by
            have := hI.1
            omega
          omega
        · rw [if_neg (by omega)] at hres
          have hne : ¬ n = 0 := by
            intro h
            have := h0 h
            omega
          have := hpos (by omega)
          omega

/-! ## Claims -/

/-- C1: for every reachable container state (any state produced from a
freshly constructed cqueue by a finite sequence of the public operations
push/push_front/emplace, pop/pop_back, reserve, shrink_to_fit, clear, swap,
copy and move), `length <= reserved <= capacity` holds, `front_index <
reserved` holds whenever `reserved > 0`, and when `reserved == 0` both
`length == 0` and `front_index == 0` hold. -/
theorem C1_reachable_invariant {α : Type} (s : Cq α) (h : Reachable s) :
    s.length ≤ s.reserved ∧ s.reserved ≤ s.capacity ∧
      (0 < s.reserved → s.front < s.reserved) ∧
      (s.reserved = 0 → s.length = 0 ∧ s.front = 0) :=
  inv_of_reachable h

/-- Witness for C1 at the concrete reachable state
`push(1); push(2); pop()` on a default-constructed queue. -/
theorem C1_reachable_invariant_witness :
    qU2p.length ≤ qU2p.reserved ∧ qU2p.reserved ≤ qU2p.capacity ∧
      (0 < qU2p.reserved → qU2p.front < qU2p.reserved) ∧
      (qU2p.reserved = 0 → qU2p.length = 0 ∧ qU2p.front = 0) :=
  C1_reachable_invariant qU2p
    (Reachable.pop qU2
      (Reachable.push qU1 qU2 2
        (Reachable.push (emptyUnlimited Nat) qU1 1
          (Reachable.init 0 (emptyUnlimited Nat) rfl) rfl) rfl))

/-- C3: with a fixed capacity, no operation ever sets `reserved` above it,
and a push/push_front/emplace on a full queue (`length == capacity`) raises
`std::length_error`.  In the source the throw happens inside
`resizeIfRequired`, before any element is constructed or any member is
written (src/cqueue.hpp lines 399-411, 483-540), which the embedding mirrors
by sequencing `resizeIfRequired` before the state update: an `.error` result
carries no mutated state. -/
theorem C3_capacity_exceeded {α : Type} (s : Cq α) (v : α) (h : Reachable s) :
    s.reserved ≤ s.capacity ∧
      (s.length = s.capacity →
        push s v = .error .lengthError ∧
        pushFront s v = .error .lengthError ∧
        emplace s v = .error .lengthError ∧
        resizeIfRequired s (s.length + 1) = .error .lengthError) := by
  have hI := inv_of_reachable h
  refine ⟨hI.2.1, ?_⟩
  intro hfull
  have h1 := hI.1
  have h2 := hI.2.1
  have hr : resizeIfRequired s (s.length + 1) = .error .lengthError := by
    rw [resizeIfRequired, if_neg (by omega), if_pos (by omega)]
  refine ⟨?_, ?_, ?_, hr⟩
  · rw [push, hr]
    rfl
  · rw [pushFront, hr]
    rfl
  · rw [emplace, push, hr]
    rfl

/-- Witness for C3: a capacity-2 queue holding 2 elements rejects a third
push with `std::length_error`. -/
theorem C3_capacity_exceeded_witness :
    qCap2b.reserved ≤ qCap2b.capacity ∧ push qCap2b 30 = .error .lengthError := by
  have hreach : Reachable qCap2b :=
    Reachable.push qCap2a qCap2b 20
      (Reachable.push qCap2 qCap2a 10 (Reachable.init 2 qCap2 rfl) rfl) rfl
  have h := C3_capacity_exceeded qCap2b 30 hreach
  exact ⟨h.1, (h.2 (by decide)).1⟩

/-- C4: the unchecked index translation returns
`(front_index + p) mod reserved` with `reserved == 0` treated as modulus 1
(always slot 0); the checked translation — the one `operator[]`, `front`,
`back` and iterator dereference resolve through — raises out-of-range
exactly when `p >= length` and otherwise returns the same slot. -/
theorem C4_index_translation {α : Type} (s : Cq α) (p : Nat) :
    getUncheckedIndex s p
        = (s.front + p) % (if s.reserved = 0 then 1 else s.reserved) ∧
      (s.reserved = 0 → getUncheckedIndex s p = 0) ∧
      (p < s.length → getCheckedIndex s p = .ok (getUncheckedIndex s p)) ∧
      (s.length ≤ p → getCheckedIndex s p = .error .outOfRange) ∧
      atPos s p = (getCheckedIndex s p).map s.data ∧
      frontQ s = atPos s 0 ∧
      backQ s = atPos s (s.length - 1) ∧
      iterDeref s (p : Int) = atPos s p := by
  refine ⟨rfl, ?_, ?_, ?_, rfl, rfl, rfl, ?_⟩
  · intro h0
    rw [getUncheckedIndex, if_pos h0, Nat.mod_one]
  · intro hp
    rw [getCheckedIndex, if_neg (by omega)]
  · intro hp
    rw [getCheckedIndex, if_pos (by omega)]
  · rw [iterDeref, iterCast, if_neg (by omega)]
    rw [Int.toNat_natCast]

/-- Witness for C4 at a concrete 3-element state with `front = 0`,
`reserved = 16`: position 2 is in range, position 3 is out of range. -/
theorem C4_index_translation_witness :
    (2 < qWide.length → getCheckedIndex qWide 2 = .ok (getUncheckedIndex qWide 2)) ∧
      (qWide.length ≤ 3 → getCheckedIndex qWide 3 = .error .outOfRange) :=
  ⟨(C4_index_translation qWide 2).2.2.1, (C4_index_translation qWide 3).2.2.2.1⟩

/-- C8: the boolean-returning `pop()`/`pop_back()` return `false` and change
nothing on an empty queue (a normal signal, no error); on a non-empty queue
they destroy the front (resp. back) element, update `front_index`
(resp. leave it), decrement `length`, and return `true`. -/
theorem C8_pop_semantics {α : Type} (s : Cq α) :
    (s.length = 0 → pop s = (false, s) ∧ popBack s = (false, s)) ∧
      (0 < s.length →
        (pop s).1 = true ∧
        (pop s).2.length = s.length - 1 ∧
        (pop s).2.front = getUncheckedIndex s 1 ∧
        (pop s).2.reserved = s.reserved ∧
        (pop s).2.data s.front = none ∧
        (∀ i, i ≠ s.front → (pop s).2.data i = s.data i) ∧
        (popBack s).1 = true ∧
        (popBack s).2.length = s.length - 1 ∧
        (popBack s).2.front = s.front ∧
        (popBack s).2.reserved = s.reserved ∧
        (popBack s).2.data (getUncheckedIndex s (s.length - 1)) = none ∧
        (∀ i, i ≠ getUncheckedIndex s (s.length - 1) →
          (popBack s).2.data i = s.data i)) := by
  constructor
  · intro h0
    rw [pop, if_pos h0, popBack, if_pos h0]
    exact ⟨rfl, rfl⟩
  · intro h0
    rw [pop, if_neg (by omega), popBack, if_neg (by omega)]
    refine ⟨rfl, by simp, rfl, rfl, by simp, ?_, rfl, by simp, rfl, rfl, by simp, ?_⟩
    · intro i hi
      simp [hi]
    · intro i hi
      simp [hi]

/-- Witness for C8: empty queue signals `false`; the two-element state
`push(1); push(2)` pops to length 1 with `true`. -/
theorem C8_pop_semantics_witness :
    (pop (emptyUnlimited Nat) = (false, emptyUnlimited Nat)) ∧
      (pop qU2).1 = true ∧ (pop qU2).2.length = qU2.length - 1 :=
  ⟨((C8_pop_semantics (emptyUnlimited Nat)).1 rfl).1,
   ((C8_pop_semantics qU2).2 (by decide)).1,
   ((C8_pop_semantics qU2).2 (by decide)).2.1⟩

/-- C9: `shrink_to_fit` is idempotent on `reserved`; it releases all storage
when the queue is empty, is a no-op when `length == reserved` or `reserved`
is at or below the minimum allocation (`MIN_ALLOCATE = 8`), and otherwise
reallocates down to `reserved == length` (cases in the order the source
tests them: empty takes precedence over the no-op conditions). -/
theorem C9_shrink_idempotent {α : Type} (s : Cq α) :
    (shrinkToFit (shrinkToFit s)).reserved = (shrinkToFit s).reserved ∧
      (s.length = 0 → (shrinkToFit s).reserved = 0) ∧
      (s.reserved ≠ 0 → s.length ≠ 0 →
        (s.length = s.reserved ∨ s.reserved ≤ DEFAULT_RESERVED) →
        shrinkToFit s = s) ∧
      (s.reserved ≠ 0 → s.length ≠ 0 →
        ¬(s.length = s.reserved ∨ s.reserved ≤ DEFAULT_RESERVED) →
        (shrinkToFit s).reserved = s.length) := by
  refine ⟨?_, ?_, ?_, ?_⟩
  · by_cases hr : s.reserved = 0
    · have h1 : shrinkToFit s = s := by rw [shrinkToFit, if_pos hr]
      rw [h1, h1]
    · by_cases hl : s.length = 0
      · have h1 : shrinkToFit s = resetQ s := by rw [shrinkToFit, if_neg hr, if_pos hl]
        have h2 : shrinkToFit (resetQ s) = resetQ s := by
          rw [shrinkToFit, if_pos (show (resetQ s).reserved = 0 from rfl)]
        rw [h1, h2]
      · by_cases hc : s.length = s.reserved ∨ s.reserved ≤ DEFAULT_RESERVED
        · have h1 : shrinkToFit s = s := by
            rw [shrinkToFit, if_neg hr, if_neg hl, if_pos hc]
          rw [h1, h1]
        · have h1 : shrinkToFit s = resize s s.length := by
            rw [shrinkToFit, if_neg hr, if_neg hl, if_neg hc]
          have h2 : shrinkToFit (resize s s.length) = resize s s.length := by
            rw [shrinkToFit,
              if_neg (show ¬ (resize s s.length).reserved = 0 from hl),
              if_neg (show ¬ (resize s s.length).length = 0 from hl),
              if_pos (show (resize s s.length).length = (resize s s.length).reserved ∨
                (resize s s.length).reserved ≤ DEFAULT_RESERVED from Or.inl rfl)]
          rw [h1, h2]
  · intro hl
    by_cases hr : s.reserved = 0
    · rw [shrinkToFit, if_pos hr]
      exact hr
    · rw [shrinkToFit, if_neg hr, if_pos hl]
      rfl
  · intro hr hl hc
    rw [shrinkToFit, if_neg hr, if_neg hl, if_pos hc]
  · intro hr hl hc
    rw [shrinkToFit, if_neg hr, if_neg hl, if_neg hc]
    rfl

/-- Witness for C9 at the concrete state with `reserved = 16 > 8` and
`length = 3`: `shrink_to_fit` reallocates down to 3 slots, and a second call
keeps `reserved = 3`. -/
theorem C9_shrink_idempotent_witness :
    (shrinkToFit qWide).reserved = 3 ∧
      (shrinkToFit (shrinkToFit qWide)).reserved = (shrinkToFit qWide).reserved :=
  ⟨(C9_shrink_idempotent qWide).2.2.2 (by decide) (by decide) (by decide),
   (C9_shrink_idempotent qWide).1⟩

/-- C5 counterexample: the src/cqueue.hpp (v1.0.0) iterator `operator+=`
applied with the negative offset `-2` to an iterator at position `0` over a
queue of length `3` leaves the position at `-2`, outside `[-1, 3]` — the
guard `pos + rhs < size()` only saturates the upper end. -/
theorem C5_clamp_counterexample :
    iterAddAssignV100 3 0 (-2) = -2 ∧ ¬ ((-1 : Int) ≤ -2) := by decide

/-- C5 (amended): positions stay in `[-1, L]` with saturation at both ends
for `++`/`--` of the v1.0.0 iterator and for its `+=`/`-=` with
*nonnegative* offsets; the clamp-based iterator of src/unnamed/part_004
keeps the position in `[-1, L]` with two-sided saturation for *every*
signed offset, leaves a before-first iterator unchanged under `--`
(`+= -1`), and leaves an end iterator at end under `++` (`+= 1`). -/
theorem C5_iterator_clamping (L pos d : Int) (hL : 0 ≤ L)
    (hpos : -1 ≤ pos ∧ pos ≤ L) :
    (-1 ≤ iterIncV100 L pos ∧ iterIncV100 L pos ≤ L) ∧
      (pos = L → iterIncV100 L pos = L) ∧
      (-1 ≤ iterDecV100 pos ∧ iterDecV100 pos ≤ L) ∧
      (pos = -1 → iterDecV100 pos = -1) ∧
      (0 ≤ d → -1 ≤ iterAddAssignV100 L pos d ∧ iterAddAssignV100 L pos d ≤ L) ∧
      (0 ≤ d → -1 ≤ iterSubAssignV100 L pos d ∧ iterSubAssignV100 L pos d ≤ L) ∧
      (-1 ≤ iterAddAssignP4 L pos d ∧ iterAddAssignP4 L pos d ≤ L) ∧
      (L ≤ pos + d → iterAddAssignP4 L pos d = L) ∧
      (pos + d ≤ -1 → iterAddAssignP4 L pos d = -1) ∧
      (-1 ≤ iterSubAssignP4 L pos d ∧ iterSubAssignP4 L pos d ≤ L) ∧
      iterAddAssignP4 L (-1) (-1) = -1 ∧
      iterAddAssignP4 L L 1 = L := by
  obtain ⟨hp1, hp2⟩ := hpos
  refine ⟨?_, ?_, ?_, ?_, ?_, ?_, ?_, ?_, ?_, ?_, ?_, ?_⟩ <;> intros <;>
    simp only [iterIncV100, iterDecV100, iterAddAssignV100, iterSubAssignV100,
      iterAddAssignP4, iterSubAssignP4, iterClampP4] <;> omega

/-- Witness for C5 at `L = 3`, `pos = 0`, `d = -2`: the part_004 clamp keeps
the position in range even for a negative offset, and `--` at the
before-first position is a fixpoint. -/
theorem C5_iterator_clamping_witness :
    (-1 ≤ iterAddAssignP4 3 0 (-2) ∧ iterAddAssignP4 3 0 (-2) ≤ 3) ∧
      iterAddAssignP4 3 (-1) (-1) = -1 := by
  have h := C5_iterator_clamping 3 0 (-2) (by decide) ⟨by decide, by decide⟩
  exact ⟨h.2.2.2.2.2.2.1, h.2.2.2.2.2.2.2.2.2.2.1⟩

/-- C6: evaluation at the failing input.  The state after
`push(1); push(2); pop()` on a default queue has `reserved = 8`,
`front = 1`, `length = 1`.  Calling `reserve(8)` on it:
* src/cqueue.hpp (v1.0.0, fast path `n < mReserved`) takes the resize
  branch, reallocating and resetting `front` to `0` — not a pure no-op;
* src/unnamed/part_005 (v1.0.5, fast path `n <= mReserved`) returns the
  state unchanged, as the claim (and todo.md item 12) require. -/
theorem C6_reserve_divergence :
    qU2p.reserved = 8 ∧ qU2p.front = 1 ∧ qU2p.length = 1 ∧
      reserveV105 qU2p 8 = .ok qU2p ∧
      Except.isOk (reserveV100 qU2p 8) = true ∧
      (okOr qU2p (reserveV100 qU2p 8)).reserved = 8 ∧
      (okOr qU2p (reserveV100 qU2p 8)).front = 0 ∧
      (okOr qU2p (reserveV100 qU2p 8)).front ≠ qU2p.front := by
  refine ⟨by decide, by decide, by decide, rfl, by decide, by decide, by decide, by decide⟩

/-- C10 counterexample: constructing with capacity exactly
`max_capacity() = 2^63 - 1` succeeds, but `capacity()` reports the sentinel
`0` rather than the requested bound, because `mCapacity` now equals the
"unlimited" sentinel. -/
theorem C10_capacity_sentinel_counterexample :
    1 ≤ maxCapacity ∧
      Except.isOk (mk Nat maxCapacity) = true ∧
      capacityQ (okOr (emptyUnlimited Nat) (mk Nat maxCapacity)) = 0 ∧
      maxCapacity ≠ 0 := by decide

/-- C10 (amended): for `1 <= c < max_capacity()` the constructed queue
reports `capacity() == c`; constructing with `0` or with exactly
`max_capacity()` stores the unlimited sentinel `max_capacity()` in
`mCapacity` and reports `capacity() == 0`; constructing with
`capacity > max_capacity()` raises `std::length_error`. -/
theorem C10_capacity_query {α : Type} (c : Nat) :
    (1 ≤ c → c < maxCapacity →
      mk α c = .ok ⟨fun _ => none, 0, c, 0, 0⟩ ∧
        capacityQ (⟨fun _ => none, 0, c, 0, 0⟩ : Cq α) = c) ∧
      (mk α 0 = .ok (emptyUnlimited α) ∧ capacityQ (emptyUnlimited α) = 0 ∧
        (emptyUnlimited α).capacity = maxCapacity) ∧
      mk α maxCapacity = .ok (emptyUnlimited α) ∧
      (maxCapacity < c → mk α c = .error .lengthError) := by
  refine ⟨?_, ⟨mk_zero_eq, ?_, rfl⟩, ?_, ?_⟩
  · intro h1 h2
    constructor
    · rw [mk, if_neg (by omega)]
      rw [if_neg (by omega)]
    · show (if c = maxCapacity then 0 else c) = c
      rw [if_neg (by omega)]
  · show (if maxCapacity = maxCapacity then 0 else maxCapacity) = 0
    rw [if_pos rfl]
  · rw [mk, if_neg (by omega)]
    rw [if_neg (by simp [maxCapacity])]
    rfl
  · intro h
    rw [mk, if_pos (by omega)]

/-- Witness for C10 at `c = 5`: the constructed queue reports capacity 5. -/
theorem C10_capacity_query_witness :
    mk Nat 5 = .ok ⟨fun _ => none, 0, 5, 0, 0⟩ ∧
      capacityQ (⟨fun _ => none, 0, 5, 0, 0⟩ : Cq Nat) = 5 :=
  (C10_capacity_query 5).1 (by decide) (by decide)

/-- C2 counterexample: pushing `1, 2` at the front and popping from the back
twice yields the reads `1, 2` — the original insertion order — not the
claimed reverse order `2, 1`.  (After `push_front(1); push_front(2)` the
logical order is `2, 1`, and `pop_back` removes `1` first.) -/
theorem C2_reverse_counterexample :
    Except.isOk (pushFrontList (emptyUnlimited Nat) [1, 2]) = true ∧
      drainBack (frontRun Nat [1, 2]) 2 = [some 1, some 2] ∧
      [some 1, some 2] ≠ (([1, 2].reverse).map some : List (Option Nat)) := by
  decide

/-- C2 (amended): starting from an empty queue with sufficient capacity,
pushing `v1..vn` at the back and then reading `front()` and popping from the
front n times yields `v1..vn` in order; pushing `v1..vn` at the front and
then reading `back()` and popping from the back n times *also* yields
`v1..vn` in the original insertion order (each end-reversal cancels; the
reverse order is obtained by popping such a queue from the front). -/
theorem C2_round_trip {α : Type} (vs : List α) (hne : vs ≠ [])
    (hcap : vs.length ≤ maxCapacity) :
    Except.isOk (pushList (emptyUnlimited α) vs) = true ∧
      drainFront (backRun α vs) (backRun α vs).length = vs.map some ∧
      Except.isOk (pushFrontList (emptyUnlimited α) vs) = true ∧
      drainBack (frontRun α vs) (frontRun α vs).length = vs.map some := by
  have hInv0 : Inv (emptyUnlimited α) := inv_mk mk_zero_eq
  have hcap0 : (emptyUnlimited α).length + vs.length ≤ (emptyUnlimited α).capacity := by
    simpa [emptyUnlimited] using hcap
  obtain ⟨t, ht, hIt, hlent, hcapt, hprest, hvals⟩ :=
    pushList_elems vs (emptyUnlimited α) hInv0 hcap0
  obtain ⟨u, hu, hIu, hlenu, hcapu, hpresu, hvalsu⟩ :=
    pushFrontList_elems vs (emptyUnlimited α) hInv0 hcap0
  have hbr : backRun α vs = t := by
    rw [backRun, ht]
    rfl
  have hfr : frontRun α vs = u := by
    rw [frontRun, hu]
    rfl
  have hlent' : t.length = vs.length := by simpa [emptyUnlimited] using hlent
  have hlenu' : u.length = vs.length := by simpa [emptyUnlimited] using hlenu
  refine ⟨by rw [ht]; rfl, ?_, by rw [hu]; rfl, ?_⟩
  · rw [hbr, drainFront_toList t.length t hIt rfl]
    apply List.ext_getElem
    · simp [hlent']
    · intro p h1 h2
      simp only [List.getElem_map, List.getElem_range]
      have hp : p < vs.length := by simpa using h2
      have hv := hvals ⟨p, hp⟩
      simpa [emptyUnlimited] using hv
  · rw [hfr, drainBack_toList u.length u hIu rfl]
    apply List.ext_getElem
    · simp [hlenu']
    · intro p h1 h2
      rw [List.getElem_reverse]
      simp only [List.getElem_map, List.getElem_range, List.length_map,
        List.length_range]
      have hp : p < vs.length := by simpa using h2
      have hv := hvalsu ⟨p, hp⟩
      rw [hlenu']
      simpa using hv

/-- Witness for C2 at `vs = [1, 2, 3]`: both round trips produce `1, 2, 3`. -/
theorem C2_round_trip_witness :
    Except.isOk (pushList (emptyUnlimited Nat) [1, 2, 3]) = true ∧
      drainFront (backRun Nat [1, 2, 3]) (backRun Nat [1, 2, 3]).length
        = [1, 2, 3].map some ∧
      Except.isOk (pushFrontList (emptyUnlimited Nat) [1, 2, 3]) = true ∧
      drainBack (frontRun Nat [1, 2, 3]) (frontRun Nat [1, 2, 3]).length
        = [1, 2, 3].map some :=
  C2_round_trip [1, 2, 3] (by decide) (by decide)

/-- C7: pushing one element at a time into an empty unlimited queue drives
`reserved` along `0 → 8 → 16 → 32 → ...`: it starts at 0, the first
allocation is the minimum `DEFAULT_RESERVED = 8`, and each later step keeps
`reserved` when the grown length still fits and doubles it otherwise (the
doubling loop stops as soon as it reaches the requested length, and the
result is clamped to the capacity, here unlimited; the feasibility bound
`n ≤ 2^60` keeps the scenario below the clamp).  `reserved` never decreases
under push/push_front/pop/pop_back/reserve — only `shrink_to_fit` (or the
destructor path `reset`) releases it. -/
theorem C7_growth_doubling :
    (pushN 0 = .ok (emptyUnlimited Nat) ∧ (emptyUnlimited Nat).reserved = 0) ∧
      (pushN 1 = .ok (pushNS 1) ∧ (pushNS 1).reserved = DEFAULT_RESERVED) ∧
      (∀ n, 1 ≤ n → n ≤ 2 ^ 60 →
        Except.isOk (pushN n) = true ∧ Except.isOk (pushN (n + 1)) = true ∧
        (pushNS n).reserved ≤ (pushNS (n + 1)).reserved ∧
        (pushNS (n + 1)).reserved =
          if n + 1 ≤ (pushNS n).reserved then (pushNS n).reserved
          else 2 * (pushNS n).reserved) ∧
      (∀ (s t : Cq Nat) (v : Nat), Inv s → push s v = .ok t →
        s.reserved ≤ t.reserved) ∧
      (∀ (s t : Cq Nat) (v : Nat), Inv s → pushFront s v = .ok t →
        s.reserved ≤ t.reserved) ∧
      (∀ s : Cq Nat, (pop s).2.reserved = s.reserved ∧
        (popBack s).2.reserved = s.reserved) ∧
      (∀ (s t : Cq Nat) (n : Nat), Inv s → reserveV100 s n = .ok t →
        s.reserved ≤ t.reserved) ∧
      (∀ (s t : Cq Nat) (n : Nat), Inv s → reserveV105 s n = .ok t →
        s.reserved ≤ t.reserved) := by
  have hmc : maxCapacity = 9223372036854775807 := rfl
  have h60 : (2 : Nat) ^ 60 = 1152921504606846976 := rfl
  have h8 : DEFAULT_RESERVED = 8 := rfl
  refine ⟨⟨rfl, rfl⟩, ⟨rfl, by decide⟩, ?_, ?_, ?_, ?_, ?_, ?_⟩
  · intro n h1 hn
    obtain ⟨s, hs, hI, hlen, hcap, h0, hpos⟩ := pushN_inv n hn
    obtain ⟨hb8, hbn, hb2⟩ := hpos h1
    obtain ⟨t, ht⟩ := push_succeeds (s := s) (v := 0) (by rw [hlen, hcap]; omega)
    have hres := push_reserved hI ht (by rw [hcap]; omega) (by rw [hcap]; omega)
    have hpush : pushN (n + 1) = .ok t := by
      show (do push (← pushN n) 0) = .ok t
      rw [hs]
      simpa [Bind.bind, Except.bind] using ht
    have hSn : pushNS n = s := by
      rw [pushNS, hs]
      rfl
    have hSn1 : pushNS (n + 1) = t := by
      rw [pushNS, hpush]
      rfl
    refine ⟨by rw [hs]; rfl, by rw [hpush]; rfl, ?_, ?_⟩
    · rw [hSn, hSn1]
      exact (inv_push hI ht).2.2.2
    · rw [hSn, hSn1, hres, hlen]
      by_cases hc : n + 1 ≤ s.reserved
      · rw [if_pos hc, if_pos hc]
      · rw [if_neg hc, if_neg hc, if_neg (by omega)]
  · exact fun s t v hI h => (inv_push hI h).2.2.2
  · exact fun s t v hI h => (inv_pushFront hI h).2.2.2
  · intro s
    constructor
    · rw [pop]
      split <;> rfl
    · rw [popBack]
      split <;> rfl
  · exact fun s t n hI h => (inv_reserveV100 hI h).2.2.2
  · exact fun s t n hI h => (inv_reserveV105 hI h).2.2.2

/-- Witness for C7 at `n = 8`: the ninth push doubles `reserved` from 8
to 16. -/
theorem C7_growth_doubling_witness :
    Except.isOk (pushN 8) = true ∧ Except.isOk (pushN (8 + 1)) = true ∧
      (pushNS 8).reserved ≤ (pushNS (8 + 1)).reserved ∧
      (pushNS (8 + 1)).reserved =
        if 8 + 1 ≤ (pushNS 8).reserved then (pushNS 8).reserved
        else 2 * (pushNS 8).reserved :=
  C7_growth_doubling.2.2.1 8 (by decide) (by decide)

end Cqueue
